import Mathlib

/-!
# Verification development for `ext/inotify/inotify_sys.c`

A shallow embedding of the Ruby C extension that wraps the Linux inotify
facility, followed by theorems about it.

Modelling conventions.

* A Ruby `VALUE` is an inductive type with one constructor per `TYPE()` tag the
  extension inspects; every other tag is `VALUE.other`.
* A raised Ruby exception is the `error` side of `Except Exception _`.
* C `int` variables are `Int`; the conversions `FIX2INT`/`NUM2INT` (range
  checked) and the implicit `uint32_t`-to-`int` conversion at an `INT2NUM` call
  are explicit functions.
* System calls are answered by oracle fields of `OS`, and every call issued is
  appended to `OS.trace`.
* Memory reached through a C pointer is a total function from offsets to bytes;
  the bytes behind the data actually received are whatever memory held before.
  The `malloc` and `free` pair of `rb_inotify_read_nonblock` has no effect of
  its own on this memory. The `free` in `rb_inotify_read` is applied to memory
  of a Ruby String and is an outcome of its own, `ReadOutcome.invalid_free`.
* The platform is Linux with 32-bit `int`, 64-bit `long` and little-endian
  byte order, so that `struct inotify_event` is four 32-bit words followed by
  the name. The constants of the system headers have their Linux values.
-/

namespace INotify

/-! ## Ruby values and exceptions -/

/-- One byte of raw memory. -/
abbrev Byte := Fin 256

/-- Ruby values, distinguished as far as `TYPE()` is inspected by the extension. -/
inductive VALUE where
  /-- The value `nil`. -/
  | Qnil
  /-- An `Integer` of type tag `T_FIXNUM`. -/
  | fixnum (n : Int)
  /-- A `Symbol` (`T_SYMBOL`), identified by its name as `rb_intern` does. -/
  | symbol (name : String)
  /-- A `String` (`T_STRING`) with its bytes. -/
  | string (bytes : List Byte)
  /-- An `Array` (`T_ARRAY`) with its elements. -/
  | array (elems : List VALUE)
  /-- A value of any other type tag (bignum, float, hash, object, ...). -/
  | other (tag : Nat)

/-- Ruby exceptions the extension can raise, with their messages. -/
inductive Exception where
  /-- Raised by `rb_raise(rb_eArgError, msg)`. -/
  | rb_eArgError (msg : String)
  /-- Raised by `rb_io_check_closed`. -/
  | rb_eIOError (msg : String)
  /-- Raised by `rb_raise(rb_eIOTimeoutError, msg)`. -/
  | rb_eIOTimeoutError (msg : String)
  /-- Raised by `FIX2INT`/`NUM2INT` when the integer does not fit a C `int`. -/
  | rb_eRangeError (msg : String)
  /-- Raised by `StringValuePtr` on a value that is not a string. -/
  | rb_eTypeError (msg : String)
  /-- Raised by `rb_sys_fail(msg)`. -/
  | rb_eSystemCallError (msg : String)
  deriving DecidableEq

/-- Result of an extension function: a value or a raised exception. -/
abbrev Result (α : Type) := Except Exception α

/-! ## C integer conversions -/

/-- Smallest C `int` (32 bit). -/
def INT_MIN : Int := -2147483648

/-- Largest C `int` (32 bit). -/
def INT_MAX : Int := 2147483647

/-- The conversions `FIX2INT` and `NUM2INT` on a fixnum: the C `int`, or
`RangeError` when the number does not fit 32 bits. -/
def NUM2INT (n : Int) : Result Int :=
  if INT_MIN ≤ n ∧ n ≤ INT_MAX then .ok n
  else .error (.rb_eRangeError "integer too big to convert to int")

/-- Conversion of a `uint32_t` to the `int` parameter of `INT2NUM`: values with
bit 31 set wrap to negative numbers. -/
def uint32_to_int (u : Nat) : Int :=
  if u % 4294967296 < 2147483648 then ((u % 4294967296 : Nat) : Int)
  else ((u % 4294967296 : Nat) : Int) - 4294967296

/-! ## The event table -/

/-- The `event_sym_t` struct: a name and its inotify bit. -/
structure event_sym_t where
  /-- Symbolic name. -/
  sym : String
  /-- Bit of the event kind. -/
  mask : Int
  deriving DecidableEq

/-- Constant of `<sys/inotify.h>`. -/
def IN_ACCESS : Int := 0x001
/-- Constant of `<sys/inotify.h>`. -/
def IN_MODIFY : Int := 0x002
/-- Constant of `<sys/inotify.h>`. -/
def IN_ATTRIB : Int := 0x004
/-- Constant of `<sys/inotify.h>`. -/
def IN_CLOSE_WRITE : Int := 0x008
/-- Constant of `<sys/inotify.h>`. -/
def IN_CLOSE_NOWRITE : Int := 0x010
/-- Constant of `<sys/inotify.h>`. -/
def IN_OPEN : Int := 0x020
/-- Constant of `<sys/inotify.h>`. -/
def IN_MOVED_FROM : Int := 0x040
/-- Constant of `<sys/inotify.h>`. -/
def IN_MOVED_TO : Int := 0x080
/-- Constant of `<sys/inotify.h>`. -/
def IN_CREATE : Int := 0x100
/-- Constant of `<sys/inotify.h>`. -/
def IN_DELETE : Int := 0x200
/-- Constant of `<sys/inotify.h>`. -/
def IN_DELETE_SELF : Int := 0x400
/-- Constant of `<sys/inotify.h>`. -/
def IN_MOVE_SELF : Int := 0x800

/-- The table `event_sym_lookup`, in declaration order. -/
def event_sym_lookup : List event_sym_t :=
  [ ⟨"access", IN_ACCESS⟩,
    ⟨"attrib", IN_ATTRIB⟩,
    ⟨"close_write", IN_CLOSE_WRITE⟩,
    ⟨"close_nowrite", IN_CLOSE_NOWRITE⟩,
    ⟨"create", IN_CREATE⟩,
    ⟨"delete", IN_DELETE⟩,
    ⟨"delete_self", IN_DELETE_SELF⟩,
    ⟨"modify", IN_MODIFY⟩,
    ⟨"move_self", IN_MOVE_SELF⟩,
    ⟨"moved_from", IN_MOVED_FROM⟩,
    ⟨"moved_to", IN_MOVED_TO⟩,
    ⟨"open", IN_OPEN⟩ ]

/-- Number of table entries, `N_INOTIFY_EVENTS`. -/
def N_INOTIFY_EVENTS : Nat := event_sym_lookup.length

/-! ## `events2mask`, `mask2events`, `supported_events` -/

/-- Inner loop of `rb_inotify_events2mask`: scan the table from index `j` on and
OR the bit of the first entry whose name is `sym` into `mask`, then `break`. -/
def events2mask_scan (sym : String) (mask : Int) : List event_sym_t → Int
  | [] => mask
  | e :: rest =>
    if sym = e.sym then Int.lor mask e.mask
    else events2mask_scan sym mask rest

/-- Outer loop of `rb_inotify_events2mask` over the array elements. -/
def events2mask_loop (mask : Int) : List VALUE → Result Int
  | [] => .ok mask
  | .symbol name :: rest =>
    events2mask_loop (events2mask_scan name mask event_sym_lookup) rest
  | _ :: _ => .error (.rb_eArgError "Non-symbol element found")

/-- The function `rb_inotify_events2mask`. -/
def rb_inotify_events2mask (arr : VALUE) : Result VALUE :=
  match arr with
  | .array elems =>
    match events2mask_loop 0 elems with
    | .ok mask => .ok (if mask ≠ 0 then .fixnum mask else .Qnil)
    | .error e => .error e
  | _ => .error (.rb_eArgError "Expecting Array of Symbols")

/-- Loop of `rb_inotify_mask2events`: push the name of every entry for which
`mask | entry.mask` is non-zero. -/
def mask2events_loop (mask : Int) : List event_sym_t → List VALUE
  | [] => []
  | e :: rest =>
    if Int.lor mask e.mask ≠ 0 then .symbol e.sym :: mask2events_loop mask rest
    else mask2events_loop mask rest

/-- The function `rb_inotify_mask2events`. -/
def rb_inotify_mask2events (rb_mask : VALUE) : Result VALUE :=
  match rb_mask with
  | .fixnum n =>
    match NUM2INT n with
    | .ok mask => .ok (.array (mask2events_loop mask event_sym_lookup))
    | .error e => .error e
  | _ => .error (.rb_eArgError "Expecting Integer")

/-- The function `rb_inotify_supported_events`. -/
def rb_inotify_supported_events : VALUE :=
  .array (event_sym_lookup.map fun ev => .symbol ev.sym)

/-! ## Descriptors, system calls and the operating system -/

/-- The `rb_io_t` behind an IO object, reduced to its descriptor. Ruby sets `fd`
to a negative number when the object is closed. -/
structure rb_io_t where
  /-- The C `int fd` field. -/
  fd : Int
  deriving DecidableEq

/-- Check `rb_io_check_closed` of the Ruby C API: `IOError` on a missing
`fptr` and on a negative descriptor, otherwise the `fptr` is usable. -/
def rb_io_check_closed (fptr : Option rb_io_t) : Result rb_io_t :=
  match fptr with
  | none => .error (.rb_eIOError "uninitialized stream")
  | some f =>
    if f.fd < 0 then .error (.rb_eIOError "closed stream") else .ok f

/-- Calls that leave the extension: system calls and the call of the superclass
method `IO#read`. -/
inductive Call where
  /-- The call `inotify_init()`. -/
  | inotify_init
  /-- The call `inotify_add_watch(fd, pathname, mask)`. -/
  | inotify_add_watch (fd : Int) (pathname : List Byte) (mask : Int)
  /-- The call `inotify_rm_watch(fd, wd)`. -/
  | inotify_rm_watch (fd : Int) (wd : Int)
  /-- The call `poll(&pol, 1, timeout)` with `pol = { fd, events, 0 }`. -/
  | poll (fd : Int) (events : Int) (timeout : Int)
  /-- The call `read(fd, buf, count)`. -/
  | read (fd : Int) (count : Nat)
  /-- The call `rb_call_super(1, args)` with `args = { count }`. -/
  | rb_call_super (count : Nat)
  deriving DecidableEq

/-- The world outside the extension: the answers of the calls, the contents of
memory before a buffer is filled, and the calls issued so far. -/
structure OS where
  /-- Return value of `inotify_init()`. -/
  inotify_init_ret : Int
  /-- Return value of `inotify_add_watch(fd, pathname, mask)`. -/
  inotify_add_watch_ret : Int → List Byte → Int → Int
  /-- Return value of `inotify_rm_watch(fd, wd)`. -/
  inotify_rm_watch_ret : Int → Int → Int
  /-- Return value of `poll` on the descriptor with zero timeout. -/
  poll_ret : Int → Int
  /-- Outcome of `read(fd, buf, count)`: `none` for `-1`, else the bytes the
  kernel delivers. -/
  read_ret : Int → Nat → Option (List Byte)
  /-- Outcome of the superclass `read(count)`: a Ruby value or an exception. -/
  super_read : Nat → Result VALUE
  /-- Contents of memory at offset `i` from the start of the buffer, before the
  buffer is filled. -/
  heap : Nat → Byte
  /-- Calls issued so far, oldest first. -/
  trace : List Call

/-- Record that a call was issued. -/
def OS.issue (os : OS) (c : Call) : OS :=
  { os with trace := os.trace ++ [c] }

/-- The calls issued between the state `os` and the later state `os1`. -/
def OS.issued (os os1 : OS) : List Call :=
  os1.trace.drop os.trace.length

/-- Constant of `<poll.h>`. -/
def POLLIN : Int := 0x001

/-- Constant of `<limits.h>`. -/
def NAME_MAX : Nat := 255

/-- The quantity `sizeof(struct inotify_event)`: four 32-bit fields. -/
def sizeof_inotify_event : Nat := 16

/-- The macro `EVENT_MAX_SIZE`. -/
def EVENT_MAX_SIZE : Nat := sizeof_inotify_event + NAME_MAX + 1

/-- The function `rb_inotify_create_fd`. -/
def rb_inotify_create_fd (os : OS) : Result VALUE × OS :=
  let fd := os.inotify_init_ret
  let os1 := os.issue .inotify_init
  if fd = -1 then (.error (.rb_eSystemCallError "Failed to allocate INotify fd"), os1)
  else (.ok (.fixnum fd), os1)

/-- The C string at `RSTRING_PTR(pathname)`: the bytes up to the first NUL. -/
def c_string (bytes : List Byte) : List Byte :=
  bytes.takeWhile fun b => b ≠ 0

/-- The function `rb_inotify_add_watch_mask`; `fptr` is `RFILE(obj)->fptr`. -/
def rb_inotify_add_watch_mask (fptr : Option rb_io_t) (pathname mask : VALUE) (os : OS) :
    Result VALUE × OS :=
  match pathname, mask with
  | .string path, .fixnum m =>
    match rb_io_check_closed fptr with
    | .error e => (.error e, os)
    | .ok f =>
      match NUM2INT m with
      | .error e => (.error e, os)
      | .ok cmask =>
        let watch_desc := os.inotify_add_watch_ret f.fd (c_string path) cmask
        let os1 := os.issue (.inotify_add_watch f.fd (c_string path) cmask)
        if watch_desc = -1 then
          (.error (.rb_eSystemCallError "Failed to add INotify watch"), os1)
        else (.ok (.fixnum watch_desc), os1)
  | _, _ => (.error (.rb_eArgError "Invalid argument"), os)

/-- The function `rb_inotify_rm_watch_id`; `fptr` is `RFILE(obj)->fptr`. -/
def rb_inotify_rm_watch_id (fptr : Option rb_io_t) (watch : VALUE) (os : OS) :
    Result VALUE × OS :=
  match watch with
  | .fixnum w =>
    match rb_io_check_closed fptr with
    | .error e => (.error e, os)
    | .ok f =>
      match NUM2INT w with
      | .error e => (.error e, os)
      | .ok wd =>
        let os1 := os.issue (.inotify_rm_watch f.fd wd)
        if os.inotify_rm_watch_ret f.fd wd ≠ 0 then
          (.error (.rb_eSystemCallError "Failed to remove watch"), os1)
        else (.ok .Qnil, os1)
  | _ => (.error (.rb_eArgError "Invalid argument types!"), os)

/-! ## Decoding a `struct inotify_event` -/

/-- Memory seen through a pointer: the byte at each offset. -/
abbrev Memory := Nat → Byte

/-- Memory at a buffer of capacity `count` after `data` was stored at its
start: at most `count` bytes are overwritten, the rest keeps its old contents. -/
def store (heap : Memory) (data : List Byte) (count : Nat) : Memory :=
  fun i => ((data.take count)[i]?).getD (heap i)

/-- The 32-bit word at byte offset `off`, least significant byte first, as an
unsigned number. -/
def load32 (event : Memory) (off : Nat) : Nat :=
  (event off).val + 256 * (event (off + 1)).val + 65536 * (event (off + 2)).val
    + 16777216 * (event (off + 3)).val

/-- The field `event->wd` (`int`, offset 0). -/
def event_wd (event : Memory) : Int := uint32_to_int (load32 event 0)

/-- The field `event->mask` (`uint32_t`, offset 4). -/
def event_mask (event : Memory) : Nat := load32 event 4

/-- The field `event->cookie` (`uint32_t`, offset 8). -/
def event_cookie (event : Memory) : Nat := load32 event 8

/-- The field `event->len` (`uint32_t`, offset 12). -/
def event_len (event : Memory) : Nat := load32 event 12

/-- The string `rb_str_new(event->name, event->len)`: `len` bytes from offset 16. -/
def event_name (event : Memory) : List Byte :=
  (List.range (event_len event)).map fun i => event (sizeof_inotify_event + i)

/-- The array built at the end of `rb_inotify_read` and
`rb_inotify_read_nonblock`: wd, mask and cookie through `INT2NUM`, then the name. -/
def event_array (event : Memory) : VALUE :=
  .array [ .fixnum (event_wd event),
           .fixnum (uint32_to_int (event_mask event)),
           .fixnum (uint32_to_int (event_cookie event)),
           .string (event_name event) ]

/-- Outcome of `rb_inotify_read`, whose C code can leave defined behaviour. -/
inductive ReadOutcome where
  /-- The function returned a value or raised a Ruby exception. -/
  | done (r : Result VALUE)
  /-- The function built the array `arr` and then called `free(event)`, where
  `event` is the pointer `StringValuePtr` gave: memory that belongs to the Ruby
  String (inside the object for an embedded string, the live heap block of the
  String otherwise) and that this code never obtained from `malloc`. The
  behaviour is undefined from there on; `arr` is not delivered to the caller. -/
  | invalid_free (arr : VALUE)

/-- The function `rb_inotify_read`: the superclass read of `EVENT_MAX_SIZE`
bytes, `StringValuePtr` on its result, the cast to `struct inotify_event`, the
four `rb_ary_push` calls, and `free(event)` on the pointer into the String.
No length is checked; memory behind the string is `os.heap`. A result of the
superclass that is not a string has no implicit conversion and raises
`TypeError` before anything is decoded. -/
def rb_inotify_read (os : OS) : ReadOutcome × OS :=
  let os1 := os.issue (.rb_call_super EVENT_MAX_SIZE)
  match os.super_read EVENT_MAX_SIZE with
  | .error e => (.done (.error e), os1)
  | .ok (.string bytes) =>
    (.invalid_free (event_array (store os.heap bytes bytes.length)), os1)
  | .ok _ => (.done (.error (.rb_eTypeError "no implicit conversion into String")), os1)

/-- The function `rb_inotify_read_nonblock`; `fptr` is `RFILE(obj)->fptr`. The
buffer is `malloc(EVENT_MAX_SIZE)`, holding `os.heap` until `read` fills it. -/
def rb_inotify_read_nonblock (fptr : Option rb_io_t) (os : OS) : Result VALUE × OS :=
  match rb_io_check_closed fptr with
  | .error e => (.error e, os)
  | .ok f =>
    let ret := os.poll_ret f.fd
    let os1 := os.issue (.poll f.fd POLLIN 0)
    if ret = -1 then (.error (.rb_eSystemCallError "Poll error"), os1)
    else if ret = 0 then (.error (.rb_eIOTimeoutError "Read timed out"), os1)
    else
      let os2 := os1.issue (.read f.fd EVENT_MAX_SIZE)
      match os.read_ret f.fd EVENT_MAX_SIZE with
      | none => (.error (.rb_eSystemCallError "Failed to read INotify FD"), os2)
      | some data => (.ok (event_array (store os.heap data EVENT_MAX_SIZE)), os2)

/-! ## Definitions used to state the properties -/

/-- The composition the round-trip law speaks about: decode a mask to names with
`rb_inotify_mask2events`, then encode the names with `rb_inotify_events2mask`. -/
def mask2events_then_events2mask (m : Int) : Result VALUE :=
  match rb_inotify_mask2events (.fixnum m) with
  | .ok names => rb_inotify_events2mask names
  | .error e => .error e

/-- The bit the table gives to a name, `none` for a name that is not in the table. -/
def table_bit (name : String) : Option Int :=
  (event_sym_lookup.find? fun e => e.sym = name).map fun e => e.mask

/-- The bitwise OR of the table bits of those names that occur in the table. -/
def recognized_or (names : List String) : Int :=
  (names.filterMap table_bit).foldl Int.lor 0

/-- The length a received buffer declares for its name: the `len` field of the
header as the C code reads it from the buffer's memory. -/
def declared_len (heap : Memory) (buffer : List Byte) : Nat :=
  event_len (store heap buffer buffer.length)

/-- A world for concrete evaluations: `poll` answers `ready`, both reads deliver
`data`, watch calls succeed, and untouched memory holds the byte `0xAA`. -/
def OS.scripted (ready : Int) (data : List Byte) : OS :=
  { inotify_init_ret := 3
    inotify_add_watch_ret := fun _ _ _ => 1
    inotify_rm_watch_ret := fun _ _ => 0
    poll_ret := fun _ => ready
    read_ret := fun _ _ => some data
    super_read := fun _ => .ok (.string data)
    heap := fun _ => 0xAA
    trace := [] }

/-- A record of the maximal size: wd 1, mask `IN_CREATE`, cookie 0, name
length 256, and as name 250 letters `a` padded with NUL bytes, as the kernel
reports the creation of a file with a 250-letter name. -/
def long_name_record : List Byte :=
  [1, 0, 0, 0,  0, 1, 0, 0,  0, 0, 0, 0,  0, 1, 0, 0]
    ++ List.replicate 250 97 ++ List.replicate 6 0

/-- The first record of a rename: wd 1, mask `IN_MOVED_FROM`, cookie
`0x80000000`, name length 16, name `a` padded with NUL bytes. -/
def moved_from_record : List Byte :=
  [1, 0, 0, 0,  0x40, 0, 0, 0,  0, 0, 0, 0x80,  16, 0, 0, 0,
   97, 0, 0, 0,  0, 0, 0, 0,  0, 0, 0, 0,  0, 0, 0, 0]

/-- The second record of that rename: wd 1, mask `IN_MOVED_TO`, the same
cookie, name length 16, name `b` padded with NUL bytes. -/
def moved_to_record : List Byte :=
  [1, 0, 0, 0,  0x80, 0, 0, 0,  0, 0, 0, 0x80,  16, 0, 0, 0,
   98, 0, 0, 0,  0, 0, 0, 0,  0, 0, 0, 0,  0, 0, 0, 0]

/-- A complete record without name: wd 1, mask `IN_MOVED_FROM`, cookie
`0x80000000`, name length 0. -/
def high_cookie_record : List Byte :=
  [1, 0, 0, 0,  0x40, 0, 0, 0,  0, 0, 0, 0x80,  0, 0, 0, 0]

/-! ## Theorems -/

/-- For a table bit that has some bit set, `mask | bit` is never zero. -/
theorem lor_ne_zero_of_testBit (mask bit : Int) (k : Nat) (h : bit.testBit k = true) :
    Int.lor mask bit ≠ 0 := by
  intro h0
  have hk := Int.testBit_lor mask bit k
  rw [h0, h] at hk
  have hz : (0 : Int).testBit k = false := by
    show Nat.testBit 0 k = false
    exact Nat.zero_testBit k
  rw [hz] at hk
  simp at hk

/-- The loop of `rb_inotify_mask2events` pushes every table name, whatever the mask. -/
theorem mask2events_loop_ignores_mask (mask : Int) :
    mask2events_loop mask event_sym_lookup
      = event_sym_lookup.map fun ev => VALUE.symbol ev.sym := by
  have h0 := lor_ne_zero_of_testBit mask IN_ACCESS 0 (by decide)
  have h1 := lor_ne_zero_of_testBit mask IN_MODIFY 1 (by decide)
  have h2 := lor_ne_zero_of_testBit mask IN_ATTRIB 2 (by decide)
  have h3 := lor_ne_zero_of_testBit mask IN_CLOSE_WRITE 3 (by decide)
  have h4 := lor_ne_zero_of_testBit mask IN_CLOSE_NOWRITE 4 (by decide)
  have h5 := lor_ne_zero_of_testBit mask IN_OPEN 5 (by decide)
  have h6 := lor_ne_zero_of_testBit mask IN_MOVED_FROM 6 (by decide)
  have h7 := lor_ne_zero_of_testBit mask IN_MOVED_TO 7 (by decide)
  have h8 := lor_ne_zero_of_testBit mask IN_CREATE 8 (by decide)
  have h9 := lor_ne_zero_of_testBit mask IN_DELETE 9 (by decide)
  have h10 := lor_ne_zero_of_testBit mask IN_DELETE_SELF 10 (by decide)
  have h11 := lor_ne_zero_of_testBit mask IN_MOVE_SELF 11 (by decide)
  simp [mask2events_loop, event_sym_lookup, h0, h1, h2, h3, h4, h5, h6, h7, h8, h9, h10, h11]

/-- C1: `rb_inotify_mask2events` tests `mask | bit` instead of `mask & bit`. At
mask 0 no table bit intersects the mask, yet the result is the full list of
twelve names and not the empty sequence; the loop pushes every name for every
mask. -/
theorem mask2events_zero_returns_every_name :
    rb_inotify_mask2events (.fixnum 0)
      = .ok (.array [.symbol "access", .symbol "attrib", .symbol "close_write",
          .symbol "close_nowrite", .symbol "create", .symbol "delete",
          .symbol "delete_self", .symbol "modify", .symbol "move_self",
          .symbol "moved_from", .symbol "moved_to", .symbol "open"])
    ∧ (∀ e ∈ event_sym_lookup, Int.land 0 e.mask = 0)
    ∧ (∀ mask : Int, mask2events_loop mask event_sym_lookup
        = event_sym_lookup.map fun ev => VALUE.symbol ev.sym) := by
  refine ⟨rfl, ?_, mask2events_loop_ignores_mask⟩
  decide

/-- C2: the round trip does not reproduce the mask. Decoding 0 and encoding the
names again yields 4095 instead of `nil`, and decoding `IN_ACCESS` (1) or
`IN_CREATE | IN_MODIFY` (0x102) yields 4095 as well. -/
theorem round_trip_yields_all_bits :
    mask2events_then_events2mask 0 = .ok (.fixnum 4095)
    ∧ mask2events_then_events2mask 1 = .ok (.fixnum 4095)
    ∧ mask2events_then_events2mask 0x102 = .ok (.fixnum 4095) :=
  ⟨rfl, rfl, rfl⟩

/-- C7: `rb_inotify_supported_events` is the list of the twelve names in
declaration order, no name occurs twice, and `rb_inotify_mask2events` at the mask
with all enumerated bits set (0xFFF) returns that same list. -/
theorem supported_events_enumeration :
    rb_inotify_supported_events
      = .array [.symbol "access", .symbol "attrib", .symbol "close_write",
          .symbol "close_nowrite", .symbol "create", .symbol "delete",
          .symbol "delete_self", .symbol "modify", .symbol "move_self",
          .symbol "moved_from", .symbol "moved_to", .symbol "open"]
    ∧ (event_sym_lookup.map fun ev => ev.sym).Nodup
    ∧ (event_sym_lookup.map fun ev => ev.sym).length = 12
    ∧ rb_inotify_mask2events (.fixnum 0xFFF) = .ok rb_inotify_supported_events := by
  refine ⟨rfl, ?_, rfl, rfl⟩
  decide

set_option maxRecDepth 100000 in
/-- The array decoded from the maximal record, whether the capacity of the
buffer is `EVENT_MAX_SIZE` or the length of the received String. -/
theorem event_array_long_name_record (count : Nat)
    (hcount : count = EVENT_MAX_SIZE ∨ count = long_name_record.length) :
    event_array (store (fun _ => 0xAA) long_name_record count)
      = .array [.fixnum 1, .fixnum 256, .fixnum 0,
          .string (List.replicate 250 97 ++ List.replicate 6 0)] := by
  have hc : count = 272 := by
    rcases hcount with h | h
    · exact h
    · exact h
  subst hc
  have h1 : event_wd (store (fun _ => 0xAA) long_name_record 272) = 1 := by decide!
  have h2 : uint32_to_int (event_mask (store (fun _ => 0xAA) long_name_record 272)) = 256 := by
    decide!
  have h3 : uint32_to_int (event_cookie (store (fun _ => 0xAA) long_name_record 272)) = 0 := by
    decide!
  have h4 : event_name (store (fun _ => 0xAA) long_name_record 272)
      = List.replicate 250 97 ++ List.replicate 6 0 := by decide!
  simp only [event_array, h1, h2, h3, h4]

set_option maxRecDepth 100000 in
/-- C4: the decoding inside `rb_inotify_read` does not deliver its event. For a
record of exactly header size + 256 bytes that declares a 256-byte name, the
blocking read builds the array with the 256 name bytes and then calls `free` on
the buffer of the String it received, so it ends in `invalid_free` instead of
returning the event. `rb_inotify_read_nonblock`, which frees its own `malloc`
block, returns the event with the untrimmed 256-byte name for the same record. -/
theorem blocking_read_ends_in_invalid_free :
    long_name_record.length = sizeof_inotify_event + declared_len (fun _ => 0xAA) long_name_record
    ∧ long_name_record.length = EVENT_MAX_SIZE
    ∧ (rb_inotify_read (OS.scripted 1 long_name_record)).1
        = .invalid_free (.array [.fixnum 1, .fixnum 256, .fixnum 0,
            .string (List.replicate 250 97 ++ List.replicate 6 0)])
    ∧ (rb_inotify_read_nonblock (some ⟨3⟩) (OS.scripted 1 long_name_record)).1
        = .ok (.array [.fixnum 1, .fixnum 256, .fixnum 0,
            .string (List.replicate 250 97 ++ List.replicate 6 0)]) := by
  have hblocking : (rb_inotify_read (OS.scripted 1 long_name_record)).1
      = .invalid_free
          (event_array (store (fun _ => 0xAA) long_name_record long_name_record.length)) := rfl
  have hnonblock : (rb_inotify_read_nonblock (some ⟨3⟩) (OS.scripted 1 long_name_record)).1
      = .ok (event_array (store (fun _ => 0xAA) long_name_record EVENT_MAX_SIZE)) := rfl
  refine ⟨?_, ?_, ?_, ?_⟩
  · decide!
  · decide!
  · rw [hblocking, event_array_long_name_record _ (Or.inr rfl)]
  · rw [hnonblock, event_array_long_name_record _ (Or.inl rfl)]

/-- C5: the `uint32_t` fields go through `INT2NUM`, whose parameter is a C
`int`. When the read of `rb_inotify_read_nonblock` delivers a record whose
cookie field holds `0x80000000`, the decoded cookie is `-2147483648`, which is
not in `0 .. 2^32-1`. -/
theorem high_cookie_is_decoded_negative :
    event_cookie (store (fun _ => 0xAA) moved_from_record EVENT_MAX_SIZE) = 2147483648
    ∧ (rb_inotify_read_nonblock (some ⟨3⟩) (OS.scripted 1 moved_from_record)).1
        = .ok (.array [.fixnum 1, .fixnum 64, .fixnum (-2147483648),
            .string [97, 0, 0, 0, 0, 0, 0, 0, 0, 0, 0, 0, 0, 0, 0, 0]]) := by
  refine ⟨?_, rfl⟩
  decide

/-- C8: on a closed descriptor (`fd < 0`) `rb_inotify_add_watch_mask` with a
string path and an integer mask, `rb_inotify_rm_watch_id` with an integer watch
id and `rb_inotify_read_nonblock` all raise the `IOError` "closed stream", and
the world, its call trace included, is unchanged: no call was issued. -/
theorem closed_descriptor_rejects (f : rb_io_t) (os : OS) (hclosed : f.fd < 0) :
    (∀ (path : List Byte) (mask : Int),
        rb_inotify_add_watch_mask (some f) (.string path) (.fixnum mask) os
          = (.error (.rb_eIOError "closed stream"), os))
    ∧ (∀ watch : Int,
        rb_inotify_rm_watch_id (some f) (.fixnum watch) os
          = (.error (.rb_eIOError "closed stream"), os))
    ∧ rb_inotify_read_nonblock (some f) os = (.error (.rb_eIOError "closed stream"), os)
    ∧ OS.issued os (rb_inotify_read_nonblock (some f) os).2 = [] := by
  have hc : rb_io_check_closed (some f) = .error (.rb_eIOError "closed stream") := by
    simp [rb_io_check_closed, hclosed]
  refine ⟨?_, ?_, ?_, ?_⟩
  · intro path mask
    simp [rb_inotify_add_watch_mask, hc]
  · intro watch
    simp [rb_inotify_rm_watch_id, hc]
  · simp [rb_inotify_read_nonblock, hc]
  · simp [rb_inotify_read_nonblock, hc, OS.issued]

/-- Witness of `closed_descriptor_rejects`: descriptor `-1` in a world where a
record is ready to be read. -/
theorem closed_descriptor_rejects_witness :
    ((⟨-1⟩ : rb_io_t).fd < 0)
    ∧ rb_inotify_add_watch_mask (some ⟨-1⟩) (.string [47, 116, 109, 112]) (.fixnum 0x102)
          (OS.scripted 1 high_cookie_record)
        = (.error (.rb_eIOError "closed stream"), OS.scripted 1 high_cookie_record)
    ∧ rb_inotify_rm_watch_id (some ⟨-1⟩) (.fixnum 1) (OS.scripted 1 high_cookie_record)
        = (.error (.rb_eIOError "closed stream"), OS.scripted 1 high_cookie_record)
    ∧ rb_inotify_read_nonblock (some ⟨-1⟩) (OS.scripted 1 high_cookie_record)
        = (.error (.rb_eIOError "closed stream"), OS.scripted 1 high_cookie_record) :=
  have h := closed_descriptor_rejects ⟨-1⟩ (OS.scripted 1 high_cookie_record) (by decide)
  ⟨by decide, h.1 [47, 116, 109, 112] 0x102, h.2.1 1, h.2.2.1⟩

/-- The calls `rb_inotify_read_nonblock` issues on an open descriptor: the poll,
followed by the read exactly when the poll returned neither `-1` nor `0`. -/
theorem read_nonblock_issued (f : rb_io_t) (os : OS) (hopen : ¬ f.fd < 0) :
    OS.issued os (rb_inotify_read_nonblock (some f) os).2
      = if os.poll_ret f.fd = -1 ∨ os.poll_ret f.fd = 0 then [Call.poll f.fd POLLIN 0]
        else [Call.poll f.fd POLLIN 0, Call.read f.fd EVENT_MAX_SIZE] := by
  have hc : rb_io_check_closed (some f) = .ok f := by
    simp [rb_io_check_closed, hopen]
  by_cases h1 : os.poll_ret f.fd = -1
  · simp [rb_inotify_read_nonblock, hc, h1, OS.issued, OS.issue]
  · by_cases h0 : os.poll_ret f.fd = 0
    · simp [rb_inotify_read_nonblock, hc, h0, OS.issued, OS.issue]
    · cases hr : os.read_ret f.fd EVENT_MAX_SIZE <;>
        simp [rb_inotify_read_nonblock, hc, h1, h0, hr, OS.issued, OS.issue]

/-- C6: on an open descriptor, when the zero-timeout poll returns 0,
`rb_inotify_read_nonblock` raises `IOTimeoutError` having issued the poll and
nothing else; and whenever a `read` is among the calls it issued, the poll
returned neither 0 nor -1 (so a positive count, poll returning at least -1) and
the `read` directly follows the poll. -/
theorem read_nonblock_poll_gate (f : rb_io_t) (os : OS) (hopen : 0 ≤ f.fd) :
    (os.poll_ret f.fd = 0 →
        rb_inotify_read_nonblock (some f) os
          = (.error (.rb_eIOTimeoutError "Read timed out"), os.issue (.poll f.fd POLLIN 0))
        ∧ OS.issued os (rb_inotify_read_nonblock (some f) os).2 = [Call.poll f.fd POLLIN 0]
        ∧ ∀ fd count, Call.read fd count ∉ OS.issued os (rb_inotify_read_nonblock (some f) os).2)
    ∧ (∀ fd count, Call.read fd count ∈ OS.issued os (rb_inotify_read_nonblock (some f) os).2 →
        os.poll_ret f.fd ≠ 0 ∧ os.poll_ret f.fd ≠ -1
        ∧ (-1 ≤ os.poll_ret f.fd → 0 < os.poll_ret f.fd)
        ∧ OS.issued os (rb_inotify_read_nonblock (some f) os).2
            = [Call.poll f.fd POLLIN 0, Call.read f.fd EVENT_MAX_SIZE]) := by
  have hopen1 : ¬ f.fd < 0 := by omega
  have hc : rb_io_check_closed (some f) = .ok f := by
    simp [rb_io_check_closed, hopen1]
  have hiss := read_nonblock_issued f os hopen1
  constructor
  · intro h0
    rw [hiss]
    simp [rb_inotify_read_nonblock, hc, h0]
  · intro fd count hmem
    rw [hiss] at hmem ⊢
    by_cases hp : os.poll_ret f.fd = -1 ∨ os.poll_ret f.fd = 0
    · simp [hp] at hmem
    · have h1 : os.poll_ret f.fd ≠ -1 := fun h => hp (Or.inl h)
      have h0 : os.poll_ret f.fd ≠ 0 := fun h => hp (Or.inr h)
      refine ⟨h0, h1, ?_, ?_⟩
      · intro hge
        omega
      · simp [hp]

/-- Witness of `read_nonblock_poll_gate`: descriptor 3, poll returning 0. -/
theorem read_nonblock_poll_gate_witness :
    (0 ≤ (⟨3⟩ : rb_io_t).fd)
    ∧ (OS.scripted 0 high_cookie_record).poll_ret 3 = 0
    ∧ rb_inotify_read_nonblock (some ⟨3⟩) (OS.scripted 0 high_cookie_record)
        = (.error (.rb_eIOTimeoutError "Read timed out"),
            (OS.scripted 0 high_cookie_record).issue (.poll 3 POLLIN 0)) :=
  ⟨by decide, rfl,
    ((read_nonblock_poll_gate ⟨3⟩ (OS.scripted 0 high_cookie_record) (by decide)).1 rfl).1⟩

/-- The outer loop fails at the first element that is not a symbol, wherever it sits. -/
theorem events2mask_loop_error (mask : Int) (es : List VALUE)
    (h : ∃ x ∈ es, ∀ s, x ≠ VALUE.symbol s) :
    events2mask_loop mask es = .error (.rb_eArgError "Non-symbol element found") := by
  induction es generalizing mask with
  | nil => simp at h
  | cons y ys ih =>
    cases y with
    | symbol name =>
      obtain ⟨x, hx, hns⟩ := h
      rcases List.mem_cons.mp hx with hxy | hxys
      · exact absurd hxy (hns name)
      · simpa [events2mask_loop] using ih _ ⟨x, hxys, hns⟩
    | Qnil => rfl
    | fixnum n => rfl
    | string b => rfl
    | array a => rfl
    | other t => rfl

/-- The outer loop succeeds on an array of symbols. -/
theorem events2mask_loop_ok (mask : Int) (es : List VALUE)
    (h : ∀ x ∈ es, ∃ s, x = VALUE.symbol s) :
    ∃ m, events2mask_loop mask es = .ok m := by
  induction es generalizing mask with
  | nil => exact ⟨mask, rfl⟩
  | cons y ys ih =>
    obtain ⟨s, hs⟩ := h y (List.mem_cons_self y ys)
    subst hs
    simpa [events2mask_loop] using
      ih (events2mask_scan s mask event_sym_lookup) (fun x hx => h x (List.mem_cons_of_mem _ hx))

/-- C10: `rb_inotify_events2mask` raises `ArgumentError` if and only if its
argument is not an array or some element of the array is not a symbol; it
returns a value if and only if the argument is an array of symbols; and an
element that is not a symbol makes it fail wherever it sits in the array. -/
theorem events2mask_argument_error (arr : VALUE) :
    ((∃ msg, rb_inotify_events2mask arr = .error (.rb_eArgError msg)) ↔
        ((∀ es, arr ≠ .array es) ∨ ∃ es, arr = .array es ∧ ∃ x ∈ es, ∀ s, x ≠ VALUE.symbol s))
    ∧ ((∃ v, rb_inotify_events2mask arr = .ok v) ↔
        ∃ es, arr = .array es ∧ ∀ x ∈ es, ∃ s, x = VALUE.symbol s)
    ∧ (∀ (before after : List VALUE) (x : VALUE), (∀ s, x ≠ VALUE.symbol s) →
        rb_inotify_events2mask (.array (before ++ x :: after))
          = .error (.rb_eArgError "Non-symbol element found")) := by
  have hbad : ∀ es : List VALUE, (∃ x ∈ es, ∀ s, x ≠ VALUE.symbol s) →
      rb_inotify_events2mask (.array es) = .error (.rb_eArgError "Non-symbol element found") := by
    intro es h
    simp [rb_inotify_events2mask, events2mask_loop_error 0 es h]
  have hgood : ∀ es : List VALUE, (∀ x ∈ es, ∃ s, x = VALUE.symbol s) →
      ∃ v, rb_inotify_events2mask (.array es) = .ok v := by
    intro es h
    obtain ⟨m, hm⟩ := events2mask_loop_ok 0 es h
    exact ⟨if m ≠ 0 then .fixnum m else .Qnil, by simp only [rb_inotify_events2mask, hm]⟩
  have hsplit : ∀ es : List VALUE,
      (∃ x ∈ es, ∀ s, x ≠ VALUE.symbol s) ∨ (∀ x ∈ es, ∃ s, x = VALUE.symbol s) := by
    intro es
    by_cases h : ∀ x ∈ es, ∃ s, x = VALUE.symbol s
    · exact Or.inr h
    · left
      push_neg at h
      exact h
  refine ⟨?_, ?_, ?_⟩
  · constructor
    · rintro ⟨msg, hmsg⟩
      cases arr with
      | array es =>
        right
        refine ⟨es, rfl, ?_⟩
        rcases hsplit es with h | h
        · exact h
        · obtain ⟨v, hv⟩ := hgood es h
          rw [hv] at hmsg
          cases hmsg
      | Qnil => left; intro es h; cases h
      | fixnum n => left; intro es h; cases h
      | symbol n => left; intro es h; cases h
      | string b => left; intro es h; cases h
      | other t => left; intro es h; cases h
    · rintro (h | ⟨es, rfl, h⟩)
      · cases arr with
        | array es => exact absurd rfl (h es)
        | Qnil => exact ⟨_, rfl⟩
        | fixnum n => exact ⟨_, rfl⟩
        | symbol n => exact ⟨_, rfl⟩
        | string b => exact ⟨_, rfl⟩
        | other t => exact ⟨_, rfl⟩
      · exact ⟨_, hbad es h⟩
  · constructor
    · rintro ⟨v, hv⟩
      cases arr with
      | array es =>
        refine ⟨es, rfl, ?_⟩
        rcases hsplit es with h | h
        · rw [hbad es h] at hv
          cases hv
        · exact h
      | Qnil => cases hv
      | fixnum n => cases hv
      | symbol n => cases hv
      | string b => cases hv
      | other t => cases hv
    · rintro ⟨es, rfl, h⟩
      exact hgood es h
  · intro before after x hx
    exact hbad _ ⟨x, by simp, hx⟩

/-- Witness of `events2mask_argument_error`: an integer behind two recognized
names makes the call fail. -/
theorem events2mask_argument_error_witness :
    rb_inotify_events2mask (.array ([.symbol "create", .symbol "modify"] ++ .fixnum 5 :: []))
      = .error (.rb_eArgError "Non-symbol element found") :=
  (events2mask_argument_error (.array [.symbol "create", .symbol "modify", .fixnum 5])).2.2 [.symbol "create", .symbol "modify"] [] (.fixnum 5)
    (fun _ h => VALUE.noConfusion h)

/-- The inner loop ORs in the bit of the first table entry named `name`, if any. -/
theorem events2mask_scan_eq (name : String) (mask : Int) (table : List event_sym_t) :
    events2mask_scan name mask table
      = match (table.find? fun e => e.sym = name).map fun e => e.mask with
        | some bit => Int.lor mask bit
        | none => mask := by
  induction table with
  | nil => rfl
  | cons e rest ih =>
    by_cases h : name = e.sym
    · simp [events2mask_scan, List.find?, h]
    · have h1 : ¬ e.sym = name := fun he => h he.symm
      simp [events2mask_scan, List.find?, h, h1, ih]

/-- The outer loop on an array of symbols folds `|` over the recognized bits. -/
theorem events2mask_loop_symbols (names : List String) (mask : Int) :
    events2mask_loop mask (names.map VALUE.symbol)
      = .ok ((names.filterMap table_bit).foldl Int.lor mask) := by
  induction names generalizing mask with
  | nil => rfl
  | cons n ns ih =>
    simp only [List.map_cons, events2mask_loop, ih, events2mask_scan_eq]
    cases hb : table_bit n with
    | none =>
      have hb1 : ((event_sym_lookup.find? fun e => e.sym = n).map fun e => e.mask) = none := hb
      simp [List.filterMap_cons, hb, hb1]
    | some b =>
      have hb1 : ((event_sym_lookup.find? fun e => e.sym = n).map fun e => e.mask) = some b := hb
      simp [List.filterMap_cons, hb, hb1]

/-- A bit is set in a fold of `|` exactly when it is set in the start value or
in one of the operands. -/
theorem testBit_foldl_lor (bits : List Int) (init : Int) (k : Nat) :
    (bits.foldl Int.lor init).testBit k = true
      ↔ init.testBit k = true ∨ ∃ b ∈ bits, b.testBit k = true := by
  induction bits generalizing init with
  | nil => simp
  | cons b bs ih =>
    simp only [List.foldl_cons, ih, Int.testBit_lor, Bool.or_eq_true, List.mem_cons,
      exists_eq_or_imp]
    tauto

/-- Every table entry is the one its own name looks up: names are not repeated. -/
theorem table_bit_of_mem (e : event_sym_t) (he : e ∈ event_sym_lookup) :
    table_bit e.sym = some e.mask := by
  simp only [event_sym_lookup, List.mem_cons, List.mem_singleton, List.not_mem_nil,
    or_false] at he
  rcases he with h | h | h | h | h | h | h | h | h | h | h | h <;> subst h <;> rfl

/-- A name has a table bit exactly when an entry of the table carries the name. -/
theorem table_bit_eq_some (name : String) (bit : Int) :
    table_bit name = some bit ↔ ∃ e ∈ event_sym_lookup, e.sym = name ∧ e.mask = bit := by
  constructor
  · intro h
    unfold table_bit at h
    cases hf : event_sym_lookup.find? fun e => e.sym = name with
    | none => simp [hf] at h
    | some e =>
      rw [hf] at h
      have hp := List.find?_some hf
      exact ⟨e, List.mem_of_find?_eq_some hf, by simpa using hp, by simpa using h⟩
  · rintro ⟨e, he, rfl, rfl⟩
    exact table_bit_of_mem e he

/-- Dropping the names outside the table does not change the recognized bits. -/
theorem recognized_bits_filter (names : List String) :
    (names.filter fun n => (table_bit n).isSome).filterMap table_bit
      = names.filterMap table_bit := by
  induction names with
  | nil => rfl
  | cons n ns ih =>
    cases hb : table_bit n with
    | none => simp [List.filter_cons, List.filterMap_cons, hb, ih]
    | some b => simp [List.filter_cons, List.filterMap_cons, hb, ih]

/-- C3: on an array of symbols `rb_inotify_events2mask` never fails; it returns
`nil` when the bitwise OR of the table bits of the recognized names is zero and
that OR otherwise, names outside the table contributing nothing. The OR is
characterized bit by bit: a bit is set exactly when some table entry whose name
occurs in the array has it set. -/
theorem events2mask_is_or_of_recognized (names : List String) :
    rb_inotify_events2mask (.array (names.map VALUE.symbol))
      = .ok (if recognized_or names = 0 then .Qnil else .fixnum (recognized_or names))
    ∧ (rb_inotify_events2mask (.array (names.map VALUE.symbol)) = .ok .Qnil
        ↔ recognized_or names = 0)
    ∧ (∀ k : Nat, (recognized_or names).testBit k = true
        ↔ ∃ e ∈ event_sym_lookup, e.sym ∈ names ∧ e.mask.testBit k = true)
    ∧ recognized_or (names.filter fun n => (table_bit n).isSome) = recognized_or names := by
  have hval : rb_inotify_events2mask (.array (names.map VALUE.symbol))
      = .ok (if recognized_or names = 0 then .Qnil else .fixnum (recognized_or names)) := by
    simp only [rb_inotify_events2mask, events2mask_loop_symbols, recognized_or]
    by_cases h : List.foldl Int.lor 0 (List.filterMap table_bit names) = 0
    · simp [h]
    · simp [h]
  refine ⟨hval, ?_, ?_, ?_⟩
  · rw [hval]
    by_cases h : recognized_or names = 0
    · simp [h]
    · simp [h]
  · intro k
    have hz : (0 : Int).testBit k = false := by
      show Nat.testBit 0 k = false
      exact Nat.zero_testBit k
    unfold recognized_or
    rw [testBit_foldl_lor, hz]
    constructor
    · rintro (h | ⟨b, hb, hk⟩)
      · cases h
      · obtain ⟨n, hn, hnb⟩ := List.mem_filterMap.mp hb
        obtain ⟨e, he, hen, heb⟩ := (table_bit_eq_some n b).mp hnb
        exact ⟨e, he, hen ▸ hn, heb ▸ hk⟩
    · rintro ⟨e, he, hn, hk⟩
      right
      exact ⟨e.mask, List.mem_filterMap.mpr ⟨e.sym, hn, table_bit_of_mem e he⟩, hk⟩
  · unfold recognized_or
    rw [recognized_bits_filter]

/-- The byte of a filled buffer: the received byte inside the data and the
capacity, the old memory elsewhere. -/
theorem store_apply (heap : Memory) (data : List Byte) (count i : Nat) :
    store heap data count i = if i < count then (data[i]?).getD (heap i) else heap i := by
  unfold store
  by_cases h : i < count
  · rw [List.getElem?_take_of_lt h, if_pos h]
  · rw [List.getElem?_take_eq_none (by omega), if_neg h]
    rfl

/-- The decoded array depends only on the header and the declared name bytes. -/
theorem event_array_congr (m1 m2 : Memory)
    (h : ∀ i, i < sizeof_inotify_event + event_len m1 → m1 i = m2 i) :
    event_array m1 = event_array m2 := by
  have hh : ∀ i, i < 16 → m1 i = m2 i := fun i hi =>
    h i (by unfold sizeof_inotify_event; omega)
  have hlen : event_len m1 = event_len m2 := by
    simp only [event_len, load32]
    rw [hh 12 (by omega), hh 13 (by omega), hh 14 (by omega), hh 15 (by omega)]
  have hwd : event_wd m1 = event_wd m2 := by
    simp only [event_wd, load32]
    rw [hh 0 (by omega), hh 1 (by omega), hh 2 (by omega), hh 3 (by omega)]
  have hmask : event_mask m1 = event_mask m2 := by
    simp only [event_mask, load32]
    rw [hh 4 (by omega), hh 5 (by omega), hh 6 (by omega), hh 7 (by omega)]
  have hcookie : event_cookie m1 = event_cookie m2 := by
    simp only [event_cookie, load32]
    rw [hh 8 (by omega), hh 9 (by omega), hh 10 (by omega), hh 11 (by omega)]
  have hname : event_name m1 = event_name m2 := by
    unfold event_name
    rw [← hlen]
    apply List.map_congr_left
    intro i hi
    exact h _ (by have := List.mem_range.mp hi; omega)
  simp only [event_array, hwd, hmask, hcookie, hname]

/-- The header of a received buffer is read alike from the `malloc`ed buffer of
`EVENT_MAX_SIZE` bytes and from the buffer's own memory. -/
theorem event_len_store (heap : Memory) (b : List Byte) :
    event_len (store heap b EVENT_MAX_SIZE) = declared_len heap b := by
  have hs : ∀ i, i < 16 → store heap b EVENT_MAX_SIZE i = store heap b b.length i := by
    intro i hi
    rw [store_apply, store_apply, if_pos (by unfold EVENT_MAX_SIZE sizeof_inotify_event NAME_MAX; omega)]
    by_cases hl : i < b.length
    · rw [if_pos hl]
    · rw [if_neg hl, List.getElem?_eq_none (by omega)]
      rfl
  simp only [declared_len, event_len, load32]
  rw [hs 12 (by omega), hs 13 (by omega), hs 14 (by omega), hs 15 (by omega)]

/-- C9: the event decoded by `rb_inotify_read_nonblock` and by
`rb_inotify_read` is determined by the first record of the received bytes. If
two received buffers agree on their first `header size + declared name length`
bytes, `rb_inotify_read_nonblock` returns the same result for them, whatever
follows the first record in either buffer, and `rb_inotify_read` has the same
outcome for them: the array it decodes before its `free` of the String buffer is
the same. The buffer requested has room for 272 bytes. -/
theorem read_event_depends_on_first_record (fptr : Option rb_io_t) (os : OS)
    (b1 b2 : List Byte)
    (h : b1.take (sizeof_inotify_event + declared_len os.heap b1)
          = b2.take (sizeof_inotify_event + declared_len os.heap b1)) :
    (rb_inotify_read_nonblock fptr { os with read_ret := fun _ _ => some b1 }).1
        = (rb_inotify_read_nonblock fptr { os with read_ret := fun _ _ => some b2 }).1
    ∧ (rb_inotify_read { os with super_read := fun _ => .ok (.string b1) }).1
        = (rb_inotify_read { os with super_read := fun _ => .ok (.string b2) }).1
    ∧ EVENT_MAX_SIZE = 272 := by
  refine ⟨?_, ?_, rfl⟩
  · have harr : event_array (store os.heap b1 EVENT_MAX_SIZE)
        = event_array (store os.heap b2 EVENT_MAX_SIZE) := by
      apply event_array_congr
      intro i hi
      rw [event_len_store] at hi
      rw [store_apply, store_apply]
      by_cases hc : i < EVENT_MAX_SIZE
      · have hget : b1[i]? = b2[i]? := by
          rw [← List.getElem?_take_of_lt hi, h, List.getElem?_take_of_lt hi]
        rw [if_pos hc, if_pos hc, hget]
      · rw [if_neg hc, if_neg hc]
    cases hf : rb_io_check_closed fptr with
    | error e => simp [rb_inotify_read_nonblock, hf]
    | ok f =>
      by_cases h1 : os.poll_ret f.fd = -1
      · simp [rb_inotify_read_nonblock, hf, h1]
      · by_cases h0 : os.poll_ret f.fd = 0
        · simp [rb_inotify_read_nonblock, hf, h0]
        · simp [rb_inotify_read_nonblock, hf, h1, h0, harr]
  · have harr : event_array (store os.heap b1 b1.length)
        = event_array (store os.heap b2 b2.length) := by
      apply event_array_congr
      intro i hi
      change i < sizeof_inotify_event + declared_len os.heap b1 at hi
      have hget : b1[i]? = b2[i]? := by
        rw [← List.getElem?_take_of_lt hi, h, List.getElem?_take_of_lt hi]
      have hs : ∀ b : List Byte, store os.heap b b.length i = (b[i]?).getD (os.heap i) := by
        intro b
        rw [store_apply]
        by_cases hl : i < b.length
        · rw [if_pos hl]
        · rw [if_neg hl, List.getElem?_eq_none (by omega)]
          rfl
      rw [hs b1, hs b2, hget]
    simp [rb_inotify_read, harr]

/-- Witness of `read_event_depends_on_first_record`: the two records of a rename
delivered by one read give the same event as the first record alone. -/
theorem read_event_depends_on_first_record_witness :
    (moved_from_record.take
          (sizeof_inotify_event + declared_len (OS.scripted 1 []).heap moved_from_record)
        = (moved_from_record ++ moved_to_record).take
          (sizeof_inotify_event + declared_len (OS.scripted 1 []).heap moved_from_record))
    ∧ (rb_inotify_read_nonblock (some ⟨3⟩)
          { OS.scripted 1 [] with read_ret := fun _ _ => some moved_from_record }).1
        = (rb_inotify_read_nonblock (some ⟨3⟩)
          { OS.scripted 1 [] with
            read_ret := fun _ _ => some (moved_from_record ++ moved_to_record) }).1
    ∧ (rb_inotify_read_nonblock (some ⟨3⟩)
          { OS.scripted 1 [] with
            read_ret := fun _ _ => some (moved_from_record ++ moved_to_record) }).1
        = .ok (.array [.fixnum 1, .fixnum 64, .fixnum (-2147483648),
            .string [97, 0, 0, 0, 0, 0, 0, 0, 0, 0, 0, 0, 0, 0, 0, 0]]) :=
  have h := read_event_depends_on_first_record (some ⟨3⟩) (OS.scripted 1 [])
    moved_from_record (moved_from_record ++ moved_to_record) (by decide)
  ⟨by decide, h.1, rfl⟩

end INotify
